import Mathlib

/-!
Verification development for the AskPOTATO natural-language query pipeline.

The pipeline (intent normalizer → intent validator → retrieval dispatcher →
explanation renderer) is embedded shallowly: pure Python helpers become Lean
functions on `String`/`List`, the SQLite queries become list computations over
an explicit store of rows, the external text-generation service becomes an
oracle parameter together with an explicit outcome type for its failure modes,
and the `functools.lru_cache` becomes explicit state passing of a bounded
association list.
-/

namespace AskPotato

/-! ### Python string primitives

`str.strip()` removes leading and trailing ASCII whitespace; `str.upper()`
upper-cases each character (for the ASCII range relevant here this is
`Char.toUpper`); `re.sub(r"[^A-Z_]", "", s)` keeps only uppercase letters and
underscores. -/

def isPySpace (c : Char) : Bool :=
  c = ' ' || c = '\t' || c = '\n' || c = '\x0d' || c = '\x0b' || c = '\x0c'

def pyStrip (s : String) : String :=
  ⟨((s.data.dropWhile isPySpace).reverse.dropWhile isPySpace).reverse⟩

def pyUpper (s : String) : String :=
  ⟨s.data.map Char.toUpper⟩

def keepUpperUnderscore (c : Char) : Bool :=
  ('A' ≤ c && c ≤ 'Z') || c = '_'

/-- The sanitization performed by `normalize_question` on the raw service
response: `raw.strip().upper()` followed by `re.sub(r"[^A-Z_]", "", ·)`. -/
def sanitize (raw : String) : String :=
  ⟨(pyUpper (pyStrip raw)).data.filter keepUpperUnderscore⟩

/-! ### Intent Normalizer (`askpotato/normalizer.py`) -/

/-- The module-level set `VALID_INTENTS` of `normalizer.py`. -/
def VALID_INTENTS : List String :=
  ["LIST_SCENARIOS", "MOST_DEFECTS_SCENARIO", "OPEN_DEFECTS",
   "FAILED_STEPS", "NO_PROOF_STEPS"]

/-- Outcome of the `requests.post` call to the text-generation service inside
`normalize_question`: a timeout (`requests.exceptions.Timeout`), a connection
failure (`requests.exceptions.ConnectionError`), any other exception — which
covers a non-success status raised by `raise_for_status` and a malformed JSON
body — or a successful response whose extracted text is `raw`
(`result.get("response", "")`, so a body without the field yields `ok ""`). -/
inductive NormOutcome where
  | timeout
  | connError
  | exc (msg : String)
  | ok (raw : String)

/-- `normalize_question`, as a function of the service-call outcome: every
exception branch returns `"UNKNOWN"`; on success the response text is
sanitized and checked against `VALID_INTENTS`. -/
def normalize_question : NormOutcome → String
  | .timeout => "UNKNOWN"
  | .connError => "UNKNOWN"
  | .exc _ => "UNKNOWN"
  | .ok raw =>
      let intent := sanitize raw
      if intent ∈ VALID_INTENTS then intent else "UNKNOWN"

/-! ### Intent Validator (`askpotato/detector.py`, `askpotato/intents.py`) -/

/-- The keys of the `INTENTS` dict in `intents.py`; `detect_intent` only tests
membership among the keys. -/
def INTENTS : List String :=
  ["LIST_SCENARIOS", "MOST_DEFECTS_SCENARIO", "OPEN_DEFECTS",
   "FAILED_STEPS", "NO_PROOF_STEPS"]

/-- `detect_intent` from `detector.py`:
`return intent if intent in INTENTS else "UNKNOWN"`. -/
def detect_intent (intent : String) : String :=
  if intent ∈ INTENTS then intent else "UNKNOWN"

/-! ### Theorems for the normalizer and the validator -/

/-- **C1** (counterexample). The claim states `normalize_question` returns the
sanitized string *if and only if* it is one of the five supported labels.
The raw service response `"UNKNOWN"` refutes the "only if" direction: the
function returns the sanitized string (`"UNKNOWN"` sanitizes to itself) even
though that string is not one of the five labels. -/
theorem normalize_question_iff_fails :
    normalize_question (.ok "UNKNOWN") = sanitize "UNKNOWN" ∧
    sanitize "UNKNOWN" ∉ VALID_INTENTS := by
  constructor
  · rfl
  · decide

/-- **C1** (amended). `normalize_question` on a successful service response
sanitizes the text (strip, upper-case, keep only `A`–`Z` and `_`) and returns
the sanitized string when it is one of the five supported labels, otherwise
`"UNKNOWN"` (the two coincide when the sanitized string is itself
`"UNKNOWN"`); the result is always a vocabulary member or `"UNKNOWN"`;
`"  OPEN_DEFECTS \n"` and `"Open_Defects!!"` resolve to `OPEN_DEFECTS`, while
`"open defects please"` sanitizes to `OPENDEFECTSPLEASE` and resolves to
`"UNKNOWN"`. -/
theorem normalize_question_sanitize_spec (o : NormOutcome) (raw : String) :
    (normalize_question o ∈ VALID_INTENTS ∨ normalize_question o = "UNKNOWN") ∧
    normalize_question (.ok raw) =
      (if sanitize raw ∈ VALID_INTENTS then sanitize raw else "UNKNOWN") ∧
    normalize_question (.ok "  OPEN_DEFECTS \n") = "OPEN_DEFECTS" ∧
    normalize_question (.ok "Open_Defects!!") = "OPEN_DEFECTS" ∧
    sanitize "open defects please" = "OPENDEFECTSPLEASE" ∧
    normalize_question (.ok "open defects please") = "UNKNOWN" := by
  refine ⟨?_, rfl, by decide, by decide, by decide, by decide⟩
  cases o with
  | timeout => exact Or.inr rfl
  | connError => exact Or.inr rfl
  | exc msg => exact Or.inr rfl
  | ok raw' =>
      by_cases h : sanitize raw' ∈ VALID_INTENTS
      · exact Or.inl (by simp [normalize_question, h])
      · exact Or.inr (by simp [normalize_question, h])

/-- **C5** (counterexample). The claim states `detect_intent` returns its
input unchanged *if and only if* the input is one of the five supported
labels. The input `"UNKNOWN"` refutes the "only if" direction: it is returned
unchanged although it is not a supported label. -/
theorem detect_intent_iff_fails :
    detect_intent "UNKNOWN" = "UNKNOWN" ∧ "UNKNOWN" ∉ INTENTS := by
  constructor
  · rfl
  · decide

/-- **C5** (amended). `detect_intent` is a pure total function that returns
its input when the input is one of the five supported labels and `"UNKNOWN"`
for every other string (including the empty string, lowercase variants and
labels with stray punctuation); consequently its output equals its input
exactly when the input is a supported label or the string `"UNKNOWN"`
itself. -/
theorem detect_intent_spec (s : String) :
    detect_intent s = (if s ∈ INTENTS then s else "UNKNOWN") ∧
    (detect_intent s = s ↔ (s ∈ INTENTS ∨ s = "UNKNOWN")) ∧
    (s ∈ INTENTS → detect_intent s = s) ∧
    (s ∉ INTENTS → detect_intent s = "UNKNOWN") ∧
    detect_intent "" = "UNKNOWN" ∧
    detect_intent "open_defects" = "UNKNOWN" ∧
    detect_intent "OPEN_DEFECTS!" = "UNKNOWN" := by
  refine ⟨rfl, ?_, ?_, ?_, by decide, by decide, by decide⟩
  · constructor
    · intro h
      by_cases hm : s ∈ INTENTS
      · exact Or.inl hm
      · right
        have : detect_intent s = "UNKNOWN" := by simp [detect_intent, hm]
        rw [← h, this]
    · rintro (hm | hu)
      · simp [detect_intent, hm]
      · subst hu; rfl
  · intro hm; simp [detect_intent, hm]
  · intro hm; simp [detect_intent, hm]

/-- **C5** witness: the amended theorem applied at the concrete member
`"OPEN_DEFECTS"` and the concrete non-member `"foo"`. -/
theorem detect_intent_spec_witness :
    detect_intent "OPEN_DEFECTS" = "OPEN_DEFECTS" ∧
    detect_intent "foo" = "UNKNOWN" :=
  ⟨(detect_intent_spec "OPEN_DEFECTS").2.2.1 (by decide),
   (detect_intent_spec "foo").2.2.2.1 (by decide)⟩

/-- **C6**. Every failing outcome of the service call inside
`normalize_question` — timeout, connection failure, or any other exception
(which covers non-success statuses and malformed bodies) — yields
`"UNKNOWN"`, as does a successful response whose sanitized text lies outside
the supported vocabulary; `normalize_question` is a total function, so no
exception escapes. -/
theorem normalize_question_error_spec (msg raw : String) :
    normalize_question .timeout = "UNKNOWN" ∧
    normalize_question .connError = "UNKNOWN" ∧
    normalize_question (.exc msg) = "UNKNOWN" ∧
    (sanitize raw ∉ VALID_INTENTS → normalize_question (.ok raw) = "UNKNOWN") := by
  refine ⟨rfl, rfl, rfl, ?_⟩
  intro h
  simp [normalize_question, h]

/-- **C6** witness: the error-path theorem applied at a concrete exception
message and a concrete out-of-vocabulary response. -/
theorem normalize_question_error_spec_witness :
    sanitize "hello there" ∉ VALID_INTENTS ∧
    normalize_question (.ok "hello there") = "UNKNOWN" :=
  ⟨by decide, (normalize_question_error_spec "boom" "hello there").2.2.2 (by decide)⟩

/-! ### Tracking store (`init_db.py` schema, the columns read by retrieval)

The handlers in `askpotato/retrieval.py` receive a database cursor; failure of
the storage layer is modelled by an `Except` input: `.error` stands for a
query that raised, which each handler catches at its `try`/`except` boundary.
-/

structure ScenarioRow where
  id : Nat
  name : String
  created_at : Nat
deriving DecidableEq

structure StepRow where
  scenario_id : Nat
  step_number : Nat
  step_name : String
  status : String
deriving DecidableEq

structure DefectRow where
  scenario_id : Nat
  step_number : Nat
  title : String
  reported_by : String
  status : String
  created_at : Nat
deriving DecidableEq

structure ProofRow where
  id : Nat
  scenario_id : Nat
  step_number : Nat
deriving DecidableEq

structure Store where
  scenarios : List ScenarioRow
  steps : List StepRow
  defects : List DefectRow
  proofs : List ProofRow
deriving DecidableEq

/-! ### `ORDER BY` on text columns: SQLite's BINARY collation is bytewise
comparison of the UTF-8 encoding, i.e. lexicographic by code point. -/

def lexCmp : List Char → List Char → Ordering
  | [], [] => .eq
  | [], _ :: _ => .lt
  | _ :: _, [] => .gt
  | a :: as, b :: bs =>
    if a = b then lexCmp as bs
    else if a.toNat < b.toNat then .lt
    else .gt

def nameLt (a b : String) : Prop := lexCmp a.data b.data = Ordering.lt

instance (a b : String) : Decidable (nameLt a b) :=
  inferInstanceAs (Decidable (lexCmp a.data b.data = Ordering.lt))

theorem char_toNat_inj {a b : Char} (h : a.toNat = b.toNat) : a = b :=
  Char.ext (UInt32.ext h)

theorem lexCmp_eq_iff : ∀ as bs : List Char, lexCmp as bs = .eq ↔ as = bs := by
  intro as
  induction as with
  | nil => intro bs; cases bs <;> simp [lexCmp]
  | cons a as ih =>
    intro bs
    cases bs with
    | nil => simp [lexCmp]
    | cons b bs =>
      by_cases hab : a = b
      · subst hab; simp [lexCmp, ih]
      · simp only [lexCmp, if_neg hab]
        constructor
        · intro h
          by_cases hlt : a.toNat < b.toNat <;> simp [hlt] at h
        · intro h
          exact absurd (by injection h) hab

theorem lexCmp_gt_iff : ∀ as bs : List Char,
    lexCmp as bs = .gt ↔ lexCmp bs as = .lt := by
  intro as
  induction as with
  | nil => intro bs; cases bs <;> simp [lexCmp]
  | cons a as ih =>
    intro bs
    cases bs with
    | nil => simp [lexCmp]
    | cons b bs =>
      by_cases hab : a = b
      · subst hab; simp [lexCmp, ih]
      · have hba : b ≠ a := fun h => hab h.symm
        have hne : a.toNat ≠ b.toNat := fun h => hab (char_toNat_inj h)
        simp only [lexCmp, if_neg hab, if_neg hba]
        by_cases hlt : a.toNat < b.toNat
        · have : ¬ b.toNat < a.toNat := by omega
          simp [hlt, this]
        · have : b.toNat < a.toNat := by omega
          simp [hlt, this]

theorem lexCmp_lt_trans : ∀ as bs cs : List Char,
    lexCmp as bs = .lt → lexCmp bs cs = .lt → lexCmp as cs = .lt := by
  intro as
  induction as with
  | nil =>
    intro bs cs h1 h2
    cases bs with
    | nil => simp [lexCmp] at h1
    | cons b bs =>
      cases cs with
      | nil => simp [lexCmp] at h2
      | cons c cs => simp [lexCmp]
  | cons a as ih =>
    intro bs cs h1 h2
    cases bs with
    | nil => simp [lexCmp] at h1
    | cons b bs =>
      cases cs with
      | nil => simp [lexCmp] at h2
      | cons c cs =>
        by_cases hab : a = b
        · subst hab
          simp only [lexCmp, if_pos rfl] at h1
          by_cases hbc : a = c
          · subst hbc
            simp only [lexCmp, if_pos rfl] at h2 ⊢
            exact ih bs cs h1 h2
          · simp only [lexCmp, if_neg hbc] at h2 ⊢
            exact h2
        · simp only [lexCmp, if_neg hab] at h1
          by_cases halt : a.toNat < b.toNat
          · by_cases hbc : b = c
            · subst hbc
              simp only [lexCmp, if_neg hab, if_pos halt]
            · simp only [lexCmp, if_neg hbc] at h2
              by_cases hblt : b.toNat < c.toNat
              · have hac : a ≠ c := fun h => by
                  subst h; omega
                simp only [lexCmp, if_neg hac, if_pos (by omega : a.toNat < c.toNat)]
              · simp [hblt] at h2
          · simp [halt] at h1

/-- `ORDER BY sc.name, st.step_number` on a joined (step, scenario) row. -/
def pairLE (a b : StepRow × ScenarioRow) : Prop :=
  nameLt a.2.name b.2.name ∨
    (a.2.name = b.2.name ∧ a.1.step_number ≤ b.1.step_number)

instance (a b : StepRow × ScenarioRow) : Decidable (pairLE a b) :=
  inferInstanceAs (Decidable (nameLt a.2.name b.2.name ∨
    (a.2.name = b.2.name ∧ a.1.step_number ≤ b.1.step_number)))

theorem nameLt_trans {a b c : String} (h1 : nameLt a b) (h2 : nameLt b c) :
    nameLt a c :=
  lexCmp_lt_trans a.data b.data c.data h1 h2

theorem nameLt_total (a b : String) :
    nameLt a b ∨ a = b ∨ nameLt b a := by
  rcases h : lexCmp a.data b.data with _ | _ | _
  · exact Or.inl h
  · exact Or.inr (Or.inl (by
      cases a; cases b
      exact congrArg String.mk ((lexCmp_eq_iff _ _).mp h)))
  · exact Or.inr (Or.inr ((lexCmp_gt_iff a.data b.data).mp h))

instance : IsTrans (StepRow × ScenarioRow) pairLE := by
  refine ⟨fun a b c hab hbc => ?_⟩
  rcases hab with hab | ⟨hab, hab'⟩ <;> rcases hbc with hbc | ⟨hbc, hbc'⟩
  · exact Or.inl (nameLt_trans hab hbc)
  · exact Or.inl (hbc ▸ hab)
  · exact Or.inl (hab ▸ hbc)
  · exact Or.inr ⟨hab.trans hbc, Nat.le_trans hab' hbc'⟩

instance : IsTotal (StepRow × ScenarioRow) pairLE := by
  refine ⟨fun a b => ?_⟩
  rcases nameLt_total a.2.name b.2.name with h | h | h
  · exact Or.inl (Or.inl h)
  · rcases Nat.le_total a.1.step_number b.1.step_number with hn | hn
    · exact Or.inl (Or.inr ⟨h, hn⟩)
    · exact Or.inr (Or.inr ⟨h.symm, hn⟩)
  · exact Or.inr (Or.inl h)

/-! ### The five retrieval handlers (`askpotato/retrieval.py`) -/

/-- `FROM rows r JOIN scenarios sc ON r.scenario_id = sc.id` for steps. -/
def joinStepsScenarios (steps : List StepRow) (scenarios : List ScenarioRow) :
    List (StepRow × ScenarioRow) :=
  steps.flatMap fun s =>
    (scenarios.filter fun sc => sc.id == s.scenario_id).map fun sc => (s, sc)

/-- The projection `SELECT st.step_name, st.step_number, sc.name` used by the
failed-steps and no-proof-steps handlers. -/
structure StepOutRow where
  step_name : String
  step_number : Nat
  scenario : String
deriving DecidableEq

def stepOut (x : StepRow × ScenarioRow) : StepOutRow :=
  ⟨x.1.step_name, x.1.step_number, x.2.name⟩

/-- The order `ORDER BY sc.name, st.step_number` on projected rows. -/
def stepOutLE (a b : StepOutRow) : Prop :=
  nameLt a.scenario b.scenario ∨
    (a.scenario = b.scenario ∧ a.step_number ≤ b.step_number)

/-- `ORDER BY created_at DESC` on scenario rows. -/
def scenCreatedDesc (a b : ScenarioRow) : Prop := b.created_at ≤ a.created_at

instance (a b : ScenarioRow) : Decidable (scenCreatedDesc a b) :=
  inferInstanceAs (Decidable (b.created_at ≤ a.created_at))

/-- `ORDER BY d.created_at DESC` on joined (defect, scenario) rows. -/
def defCreatedDesc (a b : DefectRow × ScenarioRow) : Prop :=
  b.1.created_at ≤ a.1.created_at

instance (a b : DefectRow × ScenarioRow) : Decidable (defCreatedDesc a b) :=
  inferInstanceAs (Decidable (b.1.created_at ≤ a.1.created_at))

/-- `handle_list_scenarios`:
`SELECT name FROM scenarios ORDER BY created_at DESC`, names projected out;
a storage error is caught and yields `[]`. -/
def handle_list_scenarios : Except String Store → List String
  | .error _ => []
  | .ok db => (List.insertionSort scenCreatedDesc db.scenarios).map ScenarioRow.name

/-- Whether at least one proof row matches the step's
(`scenario_id`, `step_number`) pair — the `LEFT JOIN proofs … WHERE p.id IS
NULL` exclusion test of `handle_no_proof_steps`. -/
def hasProof (db : Store) (s : StepRow) : Bool :=
  db.proofs.any fun p =>
    p.scenario_id == s.scenario_id && p.step_number == s.step_number

/-- `handle_no_proof_steps`: steps inner-joined to their scenario, kept only
when no proof row matches the (`scenario_id`, `step_number`) pair, ordered by
scenario name then step number; a storage error is caught and yields `[]`. -/
def handle_no_proof_steps : Except String Store → List StepOutRow
  | .error _ => []
  | .ok db =>
    (List.insertionSort pairLE
      ((joinStepsScenarios db.steps db.scenarios).filter fun x =>
        !(hasProof db x.1))).map stepOut

/-- `handle_failed_steps`: steps with status `'Failed'` joined to their
scenario, ordered by scenario name then step number. -/
def handle_failed_steps : Except String Store → List StepOutRow
  | .error _ => []
  | .ok db =>
    (List.insertionSort pairLE
      (joinStepsScenarios (db.steps.filter fun s => s.status == "Failed")
        db.scenarios)).map stepOut

/-- The projection `SELECT d.title, d.reported_by, s.name` of
`handle_open_defects`. -/
structure OpenDefectRow where
  title : String
  reported_by : String
  scenario : String
deriving DecidableEq

/-- `handle_open_defects`: defects with status `'Open'` joined to their
scenario, newest first. -/
def handle_open_defects : Except String Store → List OpenDefectRow
  | .error _ => []
  | .ok db =>
    (List.insertionSort defCreatedDesc
      ((db.defects.filter fun d => d.status == "Open").flatMap fun d =>
        (db.scenarios.filter fun sc => sc.id == d.scenario_id).map
          fun sc => (d, sc))).map
      fun x => ⟨x.1.title, x.1.reported_by, x.2.name⟩

/-! ### `handle_most_defects_scenario`: `GROUP BY scenario_id` with
`COUNT(*)`, `ORDER BY defect_count DESC LIMIT 1`, then a name lookup. -/

/-- Distinct group keys in first-encounter order. -/
def groupKeysAux (seen : List Nat) : List Nat → List Nat
  | [] => []
  | k :: ks =>
    if k ∈ seen then groupKeysAux seen ks
    else k :: groupKeysAux (k :: seen) ks

/-- `SELECT scenario_id, COUNT(*) AS defect_count FROM defects GROUP BY
scenario_id`. -/
def groupCounts (db : Store) : List (Nat × Nat) :=
  (groupKeysAux [] (db.defects.map DefectRow.scenario_id)).map fun sid =>
    (sid, db.defects.countP fun d => d.scenario_id == sid)

/-- `ORDER BY defect_count DESC LIMIT 1`: the group of maximal count, the
first encountered winning ties. -/
def pickMax : List (Nat × Nat) → Option (Nat × Nat)
  | [] => none
  | g :: gs =>
    match pickMax gs with
    | none => some g
    | some m => if g.2 < m.2 then some m else some g

structure MostDefectsResult where
  name : String
  defect_count : Nat
deriving DecidableEq

/-- `handle_most_defects_scenario`: the maximal group, then
`SELECT name FROM scenarios WHERE id = ?`; when the scenario row is missing
the `scenario["name"]` access raises and the handler's `except` returns
`None`, and a storage error likewise yields `none`. -/
def handle_most_defects_scenario : Except String Store → Option MostDefectsResult
  | .error _ => none
  | .ok db =>
    match pickMax (groupCounts db) with
    | none => none
    | some g =>
      match db.scenarios.find? (fun sc => sc.id == g.1) with
      | none => none
      | some sc => some ⟨sc.name, g.2⟩

/-! ### Facts about grouping and maximum selection -/

theorem groupKeysAux_sound :
    ∀ (ks : List Nat) (seen : List Nat) (k : Nat),
      k ∈ groupKeysAux seen ks → k ∈ ks := by
  intro ks
  induction ks with
  | nil => intro seen k h; simp [groupKeysAux] at h
  | cons k' ks ih =>
    intro seen k h
    simp only [groupKeysAux] at h
    split_ifs at h with hseen
    · exact List.mem_cons_of_mem _ (ih seen k h)
    · rcases List.mem_cons.mp h with h | h
      · exact h ▸ List.mem_cons_self _ _
      · exact List.mem_cons_of_mem _ (ih (k' :: seen) k h)

theorem groupKeysAux_complete :
    ∀ (ks : List Nat) (seen : List Nat) (k : Nat),
      k ∈ ks → k ∉ seen → k ∈ groupKeysAux seen ks := by
  intro ks
  induction ks with
  | nil => intro seen k h; simp at h
  | cons k' ks ih =>
    intro seen k hk hseen
    simp only [groupKeysAux]
    split_ifs with hsk
    · rcases List.mem_cons.mp hk with rfl | h
      · exact absurd hsk hseen
      · exact ih seen k h hseen
    · rcases List.mem_cons.mp hk with rfl | h
      · exact List.mem_cons_self _ _
      · by_cases hkk : k = k'
        · exact hkk ▸ List.mem_cons_self _ _
        · exact List.mem_cons_of_mem _
            (ih (k' :: seen) k h (by simp [hkk, hseen]))

theorem pickMax_mem :
    ∀ (l : List (Nat × Nat)) (m : Nat × Nat), pickMax l = some m → m ∈ l := by
  intro l
  induction l with
  | nil => intro m h; simp [pickMax] at h
  | cons g gs ih =>
    intro m h
    cases hg : pickMax gs with
    | none =>
      simp only [pickMax, hg] at h
      exact (Option.some_inj.mp h) ▸ List.mem_cons_self _ _
    | some m' =>
      simp only [pickMax, hg] at h
      split_ifs at h with hlt
      · exact List.mem_cons_of_mem _ ((Option.some_inj.mp h) ▸ ih _ hg)
      · exact (Option.some_inj.mp h) ▸ List.mem_cons_self _ _

theorem pickMax_le :
    ∀ (l : List (Nat × Nat)) (m : Nat × Nat), pickMax l = some m →
      ∀ g ∈ l, g.2 ≤ m.2 := by
  intro l
  induction l with
  | nil => intro m h; simp [pickMax] at h
  | cons a gs ih =>
    intro m h g hg
    cases ha : pickMax gs with
    | none =>
      simp only [pickMax, ha] at h
      have hgs : gs = [] := by
        cases gs with
        | nil => rfl
        | cons b bs =>
          cases hb : pickMax bs with
          | none => simp [pickMax, hb] at ha
          | some m'' =>
            simp only [pickMax, hb] at ha
            split_ifs at ha
      subst hgs
      rcases List.mem_cons.mp hg with rfl | h'
      · exact (Option.some_inj.mp h) ▸ Nat.le_refl _
      · simp at h'
    | some m' =>
      simp only [pickMax, ha] at h
      split_ifs at h with hlt
      · rcases List.mem_cons.mp hg with rfl | h'
        · exact (Option.some_inj.mp h) ▸ Nat.le_of_lt hlt
        · exact (Option.some_inj.mp h) ▸ ih m' ha g h'
      · rcases List.mem_cons.mp hg with rfl | h'
        · exact (Option.some_inj.mp h) ▸ Nat.le_refl _
        · exact (Option.some_inj.mp h) ▸ Nat.le_trans (ih m' ha g h') (Nat.le_of_not_lt hlt)

theorem pickMax_cons_isSome (g : Nat × Nat) (gs : List (Nat × Nat)) :
    ∃ m, pickMax (g :: gs) = some m := by
  cases h : pickMax gs with
  | none => exact ⟨g, by simp [pickMax, h]⟩
  | some m =>
    by_cases hlt : g.2 < m.2
    · exact ⟨m, by simp [pickMax, h, hlt]⟩
    · exact ⟨g, by simp [pickMax, h, hlt]⟩

/-- Scenarios A (2 defects), B (5 defects), C (0 defects) — the concrete
store of the MOST_DEFECTS_SCENARIO test property. -/
def exABC : Store :=
  ⟨[⟨1, "A", 1⟩, ⟨2, "B", 2⟩, ⟨3, "C", 3⟩], [],
   [⟨1, 1, "d1", "r", "Open", 1⟩, ⟨1, 2, "d2", "r", "Open", 2⟩,
    ⟨2, 1, "e1", "r", "Open", 3⟩, ⟨2, 2, "e2", "r", "Open", 4⟩,
    ⟨2, 3, "e3", "r", "Open", 5⟩, ⟨2, 4, "e4", "r", "Open", 6⟩,
    ⟨2, 5, "e5", "r", "Open", 7⟩], []⟩

/-- **C9**. Every handler converts a storage-layer error raised during its
query into an empty result at its `try`/`except` boundary: the list handlers
return `[]` and the most-defects handler returns `none`, so a storage failure
never escapes a handler. -/
theorem retrieval_handlers_error_spec (e : String) :
    handle_list_scenarios (.error e) = [] ∧
    handle_most_defects_scenario (.error e) = none ∧
    handle_open_defects (.error e) = [] ∧
    handle_failed_steps (.error e) = [] ∧
    handle_no_proof_steps (.error e) = [] :=
  ⟨rfl, rfl, rfl, rfl, rfl⟩

/-- **C3**. With no defects the most-defects handler returns `none`; with at
least one defect, and every defect's scenario present in the store, it
returns the name and count of a scenario whose defect count (all statuses
counted) is maximal over every scenario id; on the concrete A (2 defects),
B (5), C (0) store it returns B with count 5. -/
theorem handle_most_defects_scenario_spec (db : Store) :
    (db.defects = [] → handle_most_defects_scenario (.ok db) = none) ∧
    (db.defects ≠ [] →
      (∀ d ∈ db.defects, ∃ sc ∈ db.scenarios, sc.id = d.scenario_id) →
      ∃ r sc, handle_most_defects_scenario (.ok db) = some r ∧
        sc ∈ db.scenarios ∧ r.name = sc.name ∧
        r.defect_count = db.defects.countP (fun d => d.scenario_id == sc.id) ∧
        ∀ sid : Nat,
          db.defects.countP (fun d => d.scenario_id == sid) ≤ r.defect_count) ∧
    handle_most_defects_scenario (.ok exABC) = some ⟨"B", 5⟩ := by
  refine ⟨?_, ?_, by decide⟩
  · intro h
    simp [handle_most_defects_scenario, groupCounts, h, groupKeysAux, pickMax]
  · intro hne hint
    obtain ⟨d₀, hd₀⟩ : ∃ d, d ∈ db.defects := by
      cases hdefs : db.defects with
      | nil => exact absurd hdefs hne
      | cons d ds => exact ⟨d, List.mem_cons_self d ds⟩
    have hk₀ : d₀.scenario_id ∈ groupKeysAux [] (db.defects.map DefectRow.scenario_id) :=
      groupKeysAux_complete _ [] _ (List.mem_map_of_mem _ hd₀) (by simp)
    obtain ⟨m, hm⟩ : ∃ m, pickMax (groupCounts db) = some m := by
      cases hgc : groupCounts db with
      | nil =>
        have : d₀.scenario_id ∈ groupKeysAux [] (db.defects.map DefectRow.scenario_id) := hk₀
        have hmem : (d₀.scenario_id,
            db.defects.countP fun d => d.scenario_id == d₀.scenario_id) ∈ groupCounts db :=
          List.mem_map_of_mem _ hk₀
        rw [hgc] at hmem
        simp at hmem
      | cons g gs => exact hgc ▸ pickMax_cons_isSome g gs
    have hmmem := pickMax_mem _ _ hm
    obtain ⟨sid, hsidkeys, hmeq⟩ := List.mem_map.mp hmmem
    obtain ⟨d₁, hd₁, hd₁sid⟩ :
        ∃ d ∈ db.defects, d.scenario_id = sid := by
      have := groupKeysAux_sound _ _ _ hsidkeys
      obtain ⟨d, hd, hds⟩ := List.mem_map.mp this
      exact ⟨d, hd, hds⟩
    obtain ⟨sc₀, hsc₀, hsc₀id⟩ := hint d₁ hd₁
    obtain ⟨sc, hfind⟩ : ∃ sc, db.scenarios.find? (fun sc => sc.id == m.1) = some sc := by
      have : ∃ x ∈ db.scenarios, (x.id == m.1) = true :=
        ⟨sc₀, hsc₀, by simp [hsc₀id, hd₁sid, ← hmeq]⟩
      have := List.find?_isSome.mpr this
      exact Option.isSome_iff_exists.mp this
    have hscmem := List.mem_of_find?_eq_some hfind
    have hscid : sc.id = m.1 := by
      have := List.find?_some hfind
      simpa using this
    refine ⟨⟨sc.name, m.2⟩, sc, ?_, hscmem, rfl, ?_, ?_⟩
    · simp [handle_most_defects_scenario, hm, hfind]
    · have : m.2 = db.defects.countP fun d => d.scenario_id == sid := by
        rw [← hmeq]
      rw [this, hscid, ← hmeq]
    · intro sid'
      by_cases hex : ∃ d ∈ db.defects, d.scenario_id = sid'
      · obtain ⟨d', hd', hd's⟩ := hex
        have hkey : sid' ∈ groupKeysAux [] (db.defects.map DefectRow.scenario_id) :=
          groupKeysAux_complete _ [] _ (hd's ▸ List.mem_map_of_mem _ hd') (by simp)
        have hmem : (sid', db.defects.countP fun d => d.scenario_id == sid') ∈
            groupCounts db := List.mem_map_of_mem _ hkey
        exact pickMax_le _ _ hm _ hmem
      · have : db.defects.countP (fun d => d.scenario_id == sid') = 0 := by
          rw [List.countP_eq_zero]
          intro d hd
          simp only [beq_iff_eq]
          exact fun h => hex ⟨d, hd, h⟩
        rw [this]
        exact Nat.zero_le _

/-- **C3** witness: the most-defects theorem applied to the concrete A/B/C
store, both hypotheses discharged by computation. -/
theorem handle_most_defects_scenario_spec_witness :
    exABC.defects ≠ [] ∧
    ∃ r sc, handle_most_defects_scenario (.ok exABC) = some r ∧
      sc ∈ exABC.scenarios ∧ r.name = sc.name ∧
      r.defect_count = exABC.defects.countP (fun d => d.scenario_id == sc.id) ∧
      ∀ sid : Nat,
        exABC.defects.countP (fun d => d.scenario_id == sid) ≤ r.defect_count :=
  ⟨by decide, (handle_most_defects_scenario_spec exABC).2.1 (by decide) (by decide)⟩

/-! ### The NO_PROOF_STEPS anti-join -/

theorem mem_joinStepsScenarios {steps : List StepRow}
    {scenarios : List ScenarioRow} {x : StepRow × ScenarioRow} :
    x ∈ joinStepsScenarios steps scenarios ↔
      x.1 ∈ steps ∧ x.2 ∈ scenarios ∧ x.2.id = x.1.scenario_id := by
  simp only [joinStepsScenarios, List.mem_flatMap, List.mem_map,
    List.mem_filter, beq_iff_eq]
  constructor
  · rintro ⟨s, hs, sc, ⟨hsc, hid⟩, rfl⟩
    exact ⟨hs, hsc, hid⟩
  · rintro ⟨h1, h2, h3⟩
    exact ⟨x.1, h1, x.2, ⟨h2, h3⟩, rfl⟩

theorem hasProof_eq_false_iff {db : Store} {s : StepRow} :
    hasProof db s = false ↔
      ¬ ∃ p ∈ db.proofs,
        p.scenario_id = s.scenario_id ∧ p.step_number = s.step_number := by
  rw [← Bool.not_eq_true]
  simp [hasProof, List.any_eq_true, beq_iff_eq]

/-- The concrete store of the NO_PROOF_STEPS test property: scenario 1 with
step 3 (no proof) and step 4 (one matching proof). -/
def exNp : Store :=
  ⟨[⟨1, "Alpha", 10⟩],
   [⟨1, 3, "s3", "Passed"⟩, ⟨1, 4, "s4", "Failed"⟩],
   [],
   [⟨1, 1, 4⟩]⟩

/-- **C2**. The NO_PROOF_STEPS handler returns exactly the projections of
steps (joined to their scenario) for which no proof row matches the
(`scenario_id`, `step_number`) pair — a step with zero matching proofs
appears, a step with at least one matching proof does not; the result is
ordered by scenario name then step number; and prepending a proof row whose
pair matches no step leaves the result unchanged. -/
theorem handle_no_proof_steps_spec (db : Store) :
    (∀ r : StepOutRow,
      r ∈ handle_no_proof_steps (.ok db) ↔
        ∃ s ∈ db.steps, ∃ sc ∈ db.scenarios, sc.id = s.scenario_id ∧
          (¬ ∃ p ∈ db.proofs,
            p.scenario_id = s.scenario_id ∧ p.step_number = s.step_number) ∧
          r = ⟨s.step_name, s.step_number, sc.name⟩) ∧
    List.Sorted stepOutLE (handle_no_proof_steps (.ok db)) ∧
    (∀ p : ProofRow,
      (∀ s ∈ db.steps,
        ¬ (s.scenario_id = p.scenario_id ∧ s.step_number = p.step_number)) →
      handle_no_proof_steps
          (.ok ⟨db.scenarios, db.steps, db.defects, p :: db.proofs⟩) =
        handle_no_proof_steps (.ok db)) := by
  refine ⟨?_, ?_, ?_⟩
  · intro r
    simp only [handle_no_proof_steps, List.mem_map, List.mem_insertionSort,
      List.mem_filter, Bool.not_eq_true']
    constructor
    · rintro ⟨x, ⟨hjoin, hnp⟩, rfl⟩
      obtain ⟨h1, h2, h3⟩ := mem_joinStepsScenarios.mp hjoin
      exact ⟨x.1, h1, x.2, h2, h3, hasProof_eq_false_iff.mp hnp, rfl⟩
    · rintro ⟨s, hs, sc, hsc, hid, hnp, rfl⟩
      exact ⟨(s, sc),
        ⟨mem_joinStepsScenarios.mpr ⟨hs, hsc, hid⟩,
         hasProof_eq_false_iff.mpr hnp⟩, rfl⟩
  · have hs := List.sorted_insertionSort pairLE
      ((joinStepsScenarios db.steps db.scenarios).filter fun x =>
        !(hasProof db x.1))
    exact List.Pairwise.map stepOut (fun a b h => h) hs
  · intro p hp
    show (List.insertionSort pairLE
        ((joinStepsScenarios db.steps db.scenarios).filter fun x =>
          !(hasProof ⟨db.scenarios, db.steps, db.defects, p :: db.proofs⟩ x.1))).map
        stepOut = _
    have hfilter :
        ((joinStepsScenarios db.steps db.scenarios).filter fun x =>
          !(hasProof ⟨db.scenarios, db.steps, db.defects, p :: db.proofs⟩ x.1)) =
        ((joinStepsScenarios db.steps db.scenarios).filter fun x =>
          !(hasProof db x.1)) := by
      apply List.filter_congr
      intro x hx
      obtain ⟨h1, _, _⟩ := mem_joinStepsScenarios.mp hx
      have hmatch :
          (p.scenario_id == x.1.scenario_id &&
            p.step_number == x.1.step_number) = false := by
        by_cases e1 : p.scenario_id = x.1.scenario_id
        · by_cases e2 : p.step_number = x.1.step_number
          · exact absurd ⟨e1.symm, e2.symm⟩ (hp x.1 h1)
          · simp [e2]
        · simp [e1]
      have : hasProof ⟨db.scenarios, db.steps, db.defects, p :: db.proofs⟩ x.1 =
          hasProof db x.1 := by
        simp only [hasProof, List.any_cons, hmatch, Bool.false_or]
      rw [this]
    rw [hfilter]
    rfl

/-- **C2** witness: on the concrete store, step 3 (no matching proof) is in
the result, and prepending the dangling proof row (scenario 9, step 9)
leaves the result unchanged. -/
theorem handle_no_proof_steps_spec_witness :
    (⟨"s3", 3, "Alpha"⟩ : StepOutRow) ∈ handle_no_proof_steps (.ok exNp) ∧
    handle_no_proof_steps
        (.ok ⟨exNp.scenarios, exNp.steps, exNp.defects, ⟨2, 9, 9⟩ :: exNp.proofs⟩) =
      handle_no_proof_steps (.ok exNp) := by
  constructor
  · exact ((handle_no_proof_steps_spec exNp).1 _).mpr
      ⟨⟨1, 3, "s3", "Passed"⟩, by decide, ⟨1, "Alpha", 10⟩, by decide,
        rfl, by decide, rfl⟩
  · exact (handle_no_proof_steps_spec exNp).2.2 ⟨2, 9, 9⟩ (by decide)

/-! ### Explanation Renderer (`askpotato/explainer.py`)

`_cached_ai_call` is wrapped in `functools.lru_cache(maxsize=100)`. Its key
is the pair `(prompt_hash, prompt)`; since the hash is a function of the
prompt, two keys are equal exactly when the prompts are equal, so the cache
is modelled as an association list keyed by the prompt, most recently used
first: a hit moves the entry to the front, a miss inserts at the front and
drops everything beyond 100 entries. The external service is an oracle from
prompts to outcomes, and an explicit counter records how many times it is
consulted. -/

inductive ServiceOutcome where
  | ok (text : String)
  | noField
  | httpStatus (code : Nat)
  | timeout
  | connError
  | exc (msg : String)

/-- Whether the outcome is one of the four failure classes handled by
`_cached_ai_call` (non-200 status, timeout, connection error, other
exception). -/
def ServiceOutcome.isFailure : ServiceOutcome → Bool
  | .ok _ => false
  | .noField => false
  | _ => true

/-- The string `_cached_ai_call` returns for each service outcome: the
stripped response text on success, the default when the JSON body lacks a
`response` field, and the four deterministic fallback strings of the
`status_code` check and the three `except` clauses. -/
def renderOutcome : ServiceOutcome → String
  | .ok t => pyStrip t
  | .noField => pyStrip "AI returned no response."
  | .httpStatus code => "AI error: HTTP " ++ toString code
  | .timeout => "AI is taking too long to respond. Please try again."
  | .connError => "Cannot connect to AI service. Make sure Ollama is running."
  | .exc msg => "AI explanation failed: " ++ msg

structure CacheState where
  entries : List (String × String)
  calls : Nat
deriving DecidableEq

def lookupCache : List (String × String) → String → Option String
  | [], _ => none
  | e :: es, k => if e.1 = k then some e.2 else lookupCache es k

/-- `_cached_ai_call`: on a hit the cached string is returned, the entry
becomes most recently used and the service is not consulted; on a miss the
service is consulted once, its rendered result — success text or fallback
string alike — is stored at the front, and the cache is capped at 100
entries by dropping the least recently used ones. -/
def _cached_ai_call (oracle : String → ServiceOutcome) (prompt : String)
    (σ : CacheState) : String × CacheState :=
  match lookupCache σ.entries prompt with
  | some v =>
      (v, ⟨(prompt, v) :: σ.entries.filter fun e => !(e.1 == prompt), σ.calls⟩)
  | none =>
      let v := renderOutcome (oracle prompt)
      (v, ⟨((prompt, v) :: σ.entries).take 100, σ.calls + 1⟩)

/-- The fixed instruction prefix of the explanation prompt template. -/
def promptHeader : String :=
  "\nYou are AskPOTATO, an internal QA assistant.\n\nRules:\n- Explain ONLY using the provided data\n- Do NOT invent facts\n- Be concise and clear\n- No greetings or sign-offs\n- Use bullet points if listing multiple items\n\nUser question:\n"

/-- The rendered prompt of `explain_with_ai`: the template with the literal
question, the intent label, and the serialized retrieved data
(`json.dumps(data, indent=2)`) embedded at their slots. -/
def buildPrompt (question intent dataStr : String) : String :=
  promptHeader ++ question ++ "\n\nIntent:\n" ++ intent ++ "\n\nData:\n" ++
    dataStr ++ "\n\nAnswer:\n"

/-- `explain_with_ai`. Falsy retrieved data (`if not data:`) is `none` and
short-circuits without touching cache or service; truthy data is represented
by its serialization `dataStr` (`json.dumps` is injective on distinct data),
and the call is delegated to the cached wrapper keyed by the rendered
prompt. -/
def explain_with_ai (oracle : String → ServiceOutcome)
    (question intent : String) (data : Option String) (σ : CacheState) :
    String × CacheState :=
  match data with
  | none => ("No relevant data found to explain.", σ)
  | some ds => _cached_ai_call oracle (buildPrompt question intent ds) σ

/-! ### Cache lemmas -/

theorem lookupCache_eq_none_iff {l : List (String × String)} {k : String} :
    lookupCache l k = none ↔ ∀ e ∈ l, e.1 ≠ k := by
  induction l with
  | nil => simp [lookupCache]
  | cons e es ih =>
    by_cases h : e.1 = k
    · simp [lookupCache, h]
    · simp [lookupCache, h, ih]

theorem lookupCache_some_mem {l : List (String × String)} {k v : String}
    (h : lookupCache l k = some v) : ∃ e ∈ l, e.1 = k := by
  induction l with
  | nil => simp [lookupCache] at h
  | cons e es ih =>
    by_cases he : e.1 = k
    · exact ⟨e, List.mem_cons_self _ _, he⟩
    · simp only [lookupCache, if_neg he] at h
      obtain ⟨e', he', hk⟩ := ih h
      exact ⟨e', List.mem_cons_of_mem _ he', hk⟩

theorem length_filter_lt_of_mem {α : Type} (p : α → Bool) :
    ∀ (l : List α) (x : α), x ∈ l → p x = false →
      (l.filter p).length < l.length := by
  intro l
  induction l with
  | nil => intro x hx _; simp at hx
  | cons a as ih =>
    intro x hx hpx
    cases hpa : p a with
    | false =>
      rw [List.filter_cons_of_neg (by simp [hpa])]
      exact Nat.lt_succ_of_le (List.length_filter_le p as)
    | true =>
      rw [List.filter_cons_of_pos (by simp [hpa])]
      rcases List.mem_cons.mp hx with rfl | hx'
      · exact absurd hpa (by simp [hpx])
      · exact Nat.succ_lt_succ (ih x hx' hpx)

theorem cached_hit {oracle : String → ServiceOutcome} {k v : String}
    {σ : CacheState} (h : lookupCache σ.entries k = some v) :
    _cached_ai_call oracle k σ =
      (v, ⟨(k, v) :: σ.entries.filter fun e => !(e.1 == k), σ.calls⟩) := by
  simp [_cached_ai_call, h]

theorem cached_miss {oracle : String → ServiceOutcome} {k : String}
    {σ : CacheState} (h : lookupCache σ.entries k = none) :
    _cached_ai_call oracle k σ =
      (renderOutcome (oracle k),
       ⟨((k, renderOutcome (oracle k)) :: σ.entries).take 100, σ.calls + 1⟩) := by
  simp [_cached_ai_call, h]

theorem take100_cons (a : String × String) (l : List (String × String)) :
    (a :: l).take 100 = a :: l.take 99 := rfl

theorem cached_lookup_self (oracle : String → ServiceOutcome) (k : String)
    (σ : CacheState) :
    lookupCache ((_cached_ai_call oracle k σ).2).entries k =
      some ((_cached_ai_call oracle k σ).1) := by
  cases h : lookupCache σ.entries k with
  | some v => rw [cached_hit h]; simp [lookupCache]
  | none => rw [cached_miss h]; simp [take100_cons, lookupCache]

theorem cached_other_none {oracle : String → ServiceOutcome} {k k' : String}
    {σ : CacheState} (hne : k ≠ k')
    (h : lookupCache σ.entries k' = none) :
    lookupCache ((_cached_ai_call oracle k σ).2).entries k' = none := by
  have hall := lookupCache_eq_none_iff.mp h
  cases hh : lookupCache σ.entries k with
  | some v =>
    rw [cached_hit hh]
    apply lookupCache_eq_none_iff.mpr
    intro e he
    rcases List.mem_cons.mp he with rfl | he'
    · exact hne
    · exact hall e (List.mem_of_mem_filter he')
  | none =>
    rw [cached_miss hh]
    apply lookupCache_eq_none_iff.mpr
    intro e he
    rcases List.mem_cons.mp (List.mem_of_mem_take he) with rfl | he'
    · exact hne
    · exact hall e he'

theorem buildPrompt_inj {q i d d' : String}
    (h : buildPrompt q i d = buildPrompt q i d') : d = d' := by
  have h2 := congrArg String.data h
  simp only [buildPrompt, String.data_append, List.append_assoc] at h2
  rw [List.append_right_inj, List.append_right_inj, List.append_right_inj,
    List.append_right_inj, List.append_right_inj, List.append_left_inj] at h2
  cases d; cases d'
  exact congrArg String.mk (by simpa using h2)

def firstSix (s : String) : List Char := s.data.take 6

theorem firstSix_append (pre s : String) (h : 6 ≤ pre.data.length) :
    firstSix (pre ++ s) = firstSix pre := by
  simp [firstSix, String.data_append, List.take_append_of_le_length h]

theorem ne_of_firstSix {a b : String} (h : firstSix a ≠ firstSix b) : a ≠ b :=
  fun e => h (congrArg firstSix e)

/-- **C4**. The explanation cache is keyed by the rendered prompt: a second
call with the identical (question, intent, data) triple returns the first
call's string with no further service call; for different data the prompts
differ, and when the second prompt is not yet cached the second call goes to
the service (one more call) and returns the service's answer for the second
prompt, not the first call's cached text; and the cache never grows beyond
100 entries, eviction dropping the least recently used ones. -/
theorem explain_with_ai_cache_spec (oracle : String → ServiceOutcome)
    (q i ds ds' : String) (σ : CacheState) :
    ((explain_with_ai oracle q i (some ds)
        (explain_with_ai oracle q i (some ds) σ).2).1 =
      (explain_with_ai oracle q i (some ds) σ).1 ∧
     (explain_with_ai oracle q i (some ds)
        (explain_with_ai oracle q i (some ds) σ).2).2.calls =
      (explain_with_ai oracle q i (some ds) σ).2.calls) ∧
    (ds ≠ ds' →
      buildPrompt q i ds ≠ buildPrompt q i ds' ∧
      (lookupCache σ.entries (buildPrompt q i ds') = none →
        (explain_with_ai oracle q i (some ds')
            (explain_with_ai oracle q i (some ds) σ).2).1 =
          renderOutcome (oracle (buildPrompt q i ds')) ∧
        (explain_with_ai oracle q i (some ds')
            (explain_with_ai oracle q i (some ds) σ).2).2.calls =
          (explain_with_ai oracle q i (some ds) σ).2.calls + 1)) ∧
    (σ.entries.length ≤ 100 →
      (explain_with_ai oracle q i (some ds) σ).2.entries.length ≤ 100) := by
  have hexp : ∀ (d : String) (σ' : CacheState),
      explain_with_ai oracle q i (some d) σ' =
        _cached_ai_call oracle (buildPrompt q i d) σ' := fun _ _ => rfl
  refine ⟨?_, ?_, ?_⟩
  · have hself := cached_lookup_self oracle (buildPrompt q i ds) σ
    simp only [hexp]
    rw [cached_hit hself]
    exact ⟨rfl, rfl⟩
  · intro hds
    have hkne : buildPrompt q i ds ≠ buildPrompt q i ds' :=
      fun h => hds (buildPrompt_inj h)
    refine ⟨hkne, ?_⟩
    intro hmiss
    have hnone := @cached_other_none oracle (buildPrompt q i ds)
      (buildPrompt q i ds') σ hkne hmiss
    simp only [hexp]
    rw [cached_miss hnone]
    exact ⟨rfl, rfl⟩
  · intro hlen
    simp only [hexp]
    cases hh : lookupCache σ.entries (buildPrompt q i ds) with
    | some v =>
      rw [cached_hit hh]
      obtain ⟨e, he, hek⟩ := lookupCache_some_mem hh
      have hlt := length_filter_lt_of_mem
        (fun e => !(e.1 == buildPrompt q i ds)) σ.entries e he (by simp [hek])
      simp only [List.length_cons]
      omega
    | none =>
      rw [cached_miss hh]
      exact List.length_take_le 100 _

/-- **C4** witness: the cache theorem applied with a concrete oracle, the
triple (question `"q"`, intent `"OPEN_DEFECTS"`, data `"[1]"` vs `"[2]"`) and
the empty cache, all hypotheses discharged by computation. -/
theorem explain_with_ai_cache_spec_witness :
    ("[1]" : String) ≠ "[2]" ∧
    lookupCache (CacheState.mk [] 0).entries
      (buildPrompt "q" "OPEN_DEFECTS" "[2]") = none ∧
    (CacheState.mk [] 0).entries.length ≤ 100 ∧
    (buildPrompt "q" "OPEN_DEFECTS" "[1]" ≠ buildPrompt "q" "OPEN_DEFECTS" "[2]" ∧
     (explain_with_ai (fun _ => .ok "hi") "q" "OPEN_DEFECTS" (some "[2]")
         (explain_with_ai (fun _ => .ok "hi") "q" "OPEN_DEFECTS" (some "[1]")
           ⟨[], 0⟩).2).1 =
       renderOutcome ((fun _ => ServiceOutcome.ok "hi")
         (buildPrompt "q" "OPEN_DEFECTS" "[2]")) ∧
     (explain_with_ai (fun _ => .ok "hi") "q" "OPEN_DEFECTS" (some "[2]")
         (explain_with_ai (fun _ => .ok "hi") "q" "OPEN_DEFECTS" (some "[1]")
           ⟨[], 0⟩).2).2.calls =
       (explain_with_ai (fun _ => .ok "hi") "q" "OPEN_DEFECTS" (some "[1]")
         ⟨[], 0⟩).2.calls + 1) ∧
    (explain_with_ai (fun _ => .ok "hi") "q" "OPEN_DEFECTS" (some "[1]")
      ⟨[], 0⟩).2.entries.length ≤ 100 := by
  refine ⟨by decide, rfl, by decide, ?_, ?_⟩
  · have h := (explain_with_ai_cache_spec (fun _ => .ok "hi") "q" "OPEN_DEFECTS"
      "[1]" "[2]" ⟨[], 0⟩).2.1 (by decide)
    exact ⟨h.1, (h.2 rfl).1, (h.2 rfl).2⟩
  · exact (explain_with_ai_cache_spec (fun _ => .ok "hi") "q" "OPEN_DEFECTS"
      "[1]" "[2]" ⟨[], 0⟩).2.2 (by decide)

/-- **C7**. The four failure classes of `_cached_ai_call` — timeout,
connection failure, non-success HTTP status, other exception — map to four
pairwise distinct, non-empty, deterministic fallback strings, for every
status code and exception message; and `_cached_ai_call` on an uncached
prompt returns exactly the rendered outcome (fallback string included), so
no exception propagates out of it. -/
theorem cached_ai_call_failure_strings_spec (code : Nat) (msg prompt : String)
    (oracle : String → ServiceOutcome) (c : Nat) :
    renderOutcome .timeout ≠ renderOutcome .connError ∧
    renderOutcome .timeout ≠ renderOutcome (.httpStatus code) ∧
    renderOutcome .timeout ≠ renderOutcome (.exc msg) ∧
    renderOutcome .connError ≠ renderOutcome (.httpStatus code) ∧
    renderOutcome .connError ≠ renderOutcome (.exc msg) ∧
    renderOutcome (.httpStatus code) ≠ renderOutcome (.exc msg) ∧
    renderOutcome .timeout ≠ "" ∧
    renderOutcome .connError ≠ "" ∧
    renderOutcome (.httpStatus code) ≠ "" ∧
    renderOutcome (.exc msg) ≠ "" ∧
    (_cached_ai_call oracle prompt ⟨[], c⟩).1 = renderOutcome (oracle prompt) := by
  have hh : firstSix (renderOutcome (.httpStatus code)) =
      firstSix "AI error: HTTP " :=
    firstSix_append _ _ (by decide)
  have he : firstSix (renderOutcome (.exc msg)) =
      firstSix "AI explanation failed: " :=
    firstSix_append _ _ (by decide)
  refine ⟨by decide, ?_, ?_, ?_, ?_, ?_, by decide, by decide, ?_, ?_, rfl⟩
  · exact ne_of_firstSix (by rw [hh]; decide)
  · exact ne_of_firstSix (by rw [he]; decide)
  · exact ne_of_firstSix (by rw [hh]; decide)
  · exact ne_of_firstSix (by rw [he]; decide)
  · exact ne_of_firstSix (by rw [hh, he]; decide)
  · exact ne_of_firstSix (by rw [hh]; decide)
  · exact ne_of_firstSix (by rw [he]; decide)

/-- **C8** (counterexample). The claim says the empty-data short-circuit
message of `explain_with_ai` is *per-intent*; in fact the function returns
one fixed message for every intent: two distinct intents yield the same
string (the per-intent "nothing found" variants live in the `/ask` route of
`app.py`, which does not call `explain_with_ai` on empty data at all). -/
theorem explain_with_ai_not_per_intent :
    ("LIST_SCENARIOS" : String) ≠ "OPEN_DEFECTS" ∧
    (explain_with_ai (fun _ => .timeout) "q" "LIST_SCENARIOS" none ⟨[], 0⟩).1 =
      (explain_with_ai (fun _ => .timeout) "q" "OPEN_DEFECTS" none ⟨[], 0⟩).1 :=
  ⟨by decide, rfl⟩

/-- **C8** (amended). For every question and intent, `explain_with_ai` on
empty/absent data short-circuits with the fixed deterministic message
`"No relevant data found to explain."` (the same for every intent), leaving
the cache state untouched and making no external call. -/
theorem explain_with_ai_empty_data_spec (oracle : String → ServiceOutcome)
    (q i i' : String) (σ : CacheState) :
    explain_with_ai oracle q i none σ =
      ("No relevant data found to explain.", σ) ∧
    (explain_with_ai oracle q i none σ).1 =
      (explain_with_ai oracle q i' none σ).1 ∧
    (explain_with_ai oracle q i none σ).2.calls = σ.calls :=
  ⟨rfl, rfl, rfl⟩

/-- **C10**. When the service fails on an uncached prompt, the fallback
error string is returned, the service was consulted once, and the error
string itself is stored in the cache under the prompt key; an identical
later call is then served that cached error string with no further service
call. -/
theorem explain_with_ai_error_cached_spec (oracle : String → ServiceOutcome)
    (q i ds : String) (σ : CacheState)
    (_hfail : (oracle (buildPrompt q i ds)).isFailure = true)
    (hmiss : lookupCache σ.entries (buildPrompt q i ds) = none) :
    (explain_with_ai oracle q i (some ds) σ).1 =
      renderOutcome (oracle (buildPrompt q i ds)) ∧
    (explain_with_ai oracle q i (some ds) σ).2.calls = σ.calls + 1 ∧
    lookupCache (explain_with_ai oracle q i (some ds) σ).2.entries
        (buildPrompt q i ds) =
      some (renderOutcome (oracle (buildPrompt q i ds))) ∧
    (explain_with_ai oracle q i (some ds)
        (explain_with_ai oracle q i (some ds) σ).2).1 =
      renderOutcome (oracle (buildPrompt q i ds)) ∧
    (explain_with_ai oracle q i (some ds)
        (explain_with_ai oracle q i (some ds) σ).2).2.calls =
      (explain_with_ai oracle q i (some ds) σ).2.calls := by
  have hexp : ∀ σ' : CacheState,
      explain_with_ai oracle q i (some ds) σ' =
        _cached_ai_call oracle (buildPrompt q i ds) σ' := fun _ => rfl
  have hself := cached_lookup_self oracle (buildPrompt q i ds) σ
  refine ⟨?_, ?_, ?_, ?_, ?_⟩
  · rw [hexp, cached_miss hmiss]
  · rw [hexp, cached_miss hmiss]
  · rw [hexp, cached_miss hmiss, take100_cons]
    simp [lookupCache]
  · simp only [hexp]
    rw [cached_hit hself, cached_miss hmiss]
  · simp only [hexp]
    rw [cached_hit hself]

/-- **C10** witness: the error-caching theorem applied with an oracle that
always times out, the empty cache and a concrete triple, both hypotheses
discharged by computation. -/
theorem explain_with_ai_error_cached_spec_witness :
    ((fun _ => ServiceOutcome.timeout)
      (buildPrompt "q" "OPEN_DEFECTS" "[1]")).isFailure = true ∧
    lookupCache (CacheState.mk [] 0).entries
      (buildPrompt "q" "OPEN_DEFECTS" "[1]") = none ∧
    ((explain_with_ai (fun _ => .timeout) "q" "OPEN_DEFECTS" (some "[1]")
        ⟨[], 0⟩).1 =
      renderOutcome ((fun _ => ServiceOutcome.timeout)
        (buildPrompt "q" "OPEN_DEFECTS" "[1]")) ∧
    (explain_with_ai (fun _ => .timeout) "q" "OPEN_DEFECTS" (some "[1]")
        ⟨[], 0⟩).2.calls = (CacheState.mk [] 0).calls + 1 ∧
    lookupCache (explain_with_ai (fun _ => .timeout) "q" "OPEN_DEFECTS"
        (some "[1]") ⟨[], 0⟩).2.entries
        (buildPrompt "q" "OPEN_DEFECTS" "[1]") =
      some (renderOutcome ((fun _ => ServiceOutcome.timeout)
        (buildPrompt "q" "OPEN_DEFECTS" "[1]"))) ∧
    (explain_with_ai (fun _ => .timeout) "q" "OPEN_DEFECTS" (some "[1]")
        (explain_with_ai (fun _ => .timeout) "q" "OPEN_DEFECTS" (some "[1]")
          ⟨[], 0⟩).2).1 =
      renderOutcome ((fun _ => ServiceOutcome.timeout)
        (buildPrompt "q" "OPEN_DEFECTS" "[1]")) ∧
    (explain_with_ai (fun _ => .timeout) "q" "OPEN_DEFECTS" (some "[1]")
        (explain_with_ai (fun _ => .timeout) "q" "OPEN_DEFECTS" (some "[1]")
          ⟨[], 0⟩).2).2.calls =
      (explain_with_ai (fun _ => .timeout) "q" "OPEN_DEFECTS" (some "[1]")
        ⟨[], 0⟩).2.calls) :=
  ⟨rfl, rfl,
   explain_with_ai_error_cached_spec (fun _ => .timeout) "q" "OPEN_DEFECTS"
     "[1]" ⟨[], 0⟩ rfl rfl⟩

end AskPotato
